import Mathlib

/-!
Verification of the spatial window-management and thumbnail-cache subsystems
of the quest-360-app media viewer (`VRScene.jsx`).

The JavaScript source is shallowly embedded: the cache (a JS `Map` used as an
LRU store by `GalleryThumb` / `VideoGalleryThumb`) becomes an association list
in insertion order with explicit state passing, the drag handlers
(`onDown` / `onMove` / `onUp`) become a state machine over pointer events, the
window layout (`placeWindows`) becomes a pure function parameterised over the
trigonometric primitives it delegates to, and the per-frame XR-presentation
check becomes a step function over an explicit dock state.
-/

/-! ## Thumbnail cache (GalleryThumb / VideoGalleryThumb)

The caches are JS `Map`s from a URL to either `{ promise }` (a load in
flight) or `{ texture }` (a resolved thumbnail).  A `Map` iterates in
insertion order, `map.delete(k); map.set(k, v)` moves an entry to the back,
and `map.keys().next().value` is the oldest entry, which is exactly how the
code realises LRU ordering.  Loads and textures are abstracted as numeric
identifiers.  `lastTouch` is ghost instrumentation (not present in the code):
it records the logical time of the entry's last touch, so that
"least-recently-touched" can be stated; it never influences behaviour. -/

inductive ThumbEntry where
  | pending (load : Nat)
  | resolved (tex : Nat)
deriving DecidableEq, Repr

/-- The texture held by a cache entry: `{ texture }` entries hold one,
`{ promise }` entries hold none (mirrors the `oldest?.texture` test). -/
def ThumbEntry.texture : ThumbEntry → Option Nat
  | .pending _ => none
  | .resolved t => some t

structure CacheSlot where
  url : String
  entry : ThumbEntry
  lastTouch : Nat
deriving DecidableEq, Repr

structure CacheState where
  slots : List CacheSlot
  clock : Nat
deriving DecidableEq, Repr

/-- `cacheRef.current.get(url)` -/
def mapGet (c : List CacheSlot) (u : String) : Option ThumbEntry :=
  (c.find? (fun s => s.url = u)).map (fun s => s.entry)

/-- `cacheRef.current.delete(url)`: removes the entry for `u`, keeping the
order of the others. -/
def mapDelete (c : List CacheSlot) (u : String) : List CacheSlot :=
  c.filter (fun s => s.url ≠ u)

/-- `cacheRef.current.set(url, e)`: a JS `Map.set` updates an existing key in
place (keeping its position) and appends an absent key at the back. -/
def mapSet (c : List CacheSlot) (u : String) (e : ThumbEntry) (now : Nat) : List CacheSlot :=
  if c.any (fun s => s.url = u) then
    c.map (fun s => if s.url = u then { s with entry := e } else s)
  else c ++ [⟨u, e, now⟩]

/-- The `touch` helper of both thumb components:
`cacheRef.current.delete(url); cacheRef.current.set(url, entry)` — the entry
moves to the most-recently-used (back) position. -/
def touch (s : CacheState) (u : String) (e : ThumbEntry) : CacheState :=
  { slots := mapDelete s.slots u ++ [⟨u, e, s.clock⟩], clock := s.clock + 1 }

def GALLERY_THUMB_CACHE_LIMIT : Nat := 24
def VIDEO_THUMB_CACHE_LIMIT : Nat := 18

/-- The `enforceLimit` helper:
`while (size > LIMIT) { oldestKey = keys().next().value; oldest = get(oldestKey);
delete(oldestKey); if (oldest?.texture) disposeThumbnailTexture(oldest.texture) }`.
Returns the surviving cache, the evicted slots in eviction order, and the
textures passed to `disposeThumbnailTexture`, in call order. -/
def enforceLimit (limit : Nat) : List CacheSlot → List CacheSlot × List CacheSlot × List Nat
  | [] => ([], [], [])
  | oldest :: rest =>
    if rest.length + 1 ≤ limit then (oldest :: rest, [], [])
    else
      let r := enforceLimit limit rest
      (r.1, oldest :: r.2.1, oldest.entry.texture.toList ++ r.2.2)

/-- What the synchronous head of the `GalleryThumb` effect body did (the code
from `const existing = cacheRef.current.get(url)` down to the first `await`). -/
inductive ImgStartOutcome where
  | usedResolved (tex : Nat)
  | attached
  | startedLoad
deriving DecidableEq, Repr

/-- The synchronous head of the `GalleryThumb` get effect.  There is no
suspension point between reading the cache and (on a miss) storing the
pending entry: `loadScaledThumbnailTexture` is called (starting the one
underlying load) and `cacheRef.current.set(url, { promise })` runs before the
effect first awaits.  The middle component counts underlying loads started. -/
def imgGetStart (s : CacheState) (u : String) (load : Nat) :
    CacheState × Nat × ImgStartOutcome :=
  match mapGet s.slots u with
  | some (.resolved tex) => (touch s u (.resolved tex), 0, .usedResolved tex)
  | some (.pending _) => (s, 0, .attached)
  | none =>
    ({ slots := mapSet s.slots u (.pending load) s.clock, clock := s.clock + 1 },
      1, .startedLoad)

/-- The cache-relevant events of an interleaved execution of `get` effects:
`getStart` is the synchronous head of an effect run, `loadOk` the continuation
after a successful load (`touch(entry); enforceLimit()`), `loadFail` the
catch handler (`cacheRef.current.delete(url)`).  `loadOk` also covers the
video variant's poster path, which ends in the same `touch`/`enforceLimit`. -/
inductive GetEvent where
  | getStart (u : String) (load : Nat)
  | loadOk (u : String) (tex : Nat)
  | loadFail (u : String)
deriving DecidableEq, Repr

/-- One event applied to the cache; returns the evicted slots and the
disposed textures of the step. -/
def step (limit : Nat) (s : CacheState) : GetEvent → CacheState × List CacheSlot × List Nat
  | .getStart u load => ((imgGetStart s u load).1, [], [])
  | .loadOk u tex =>
    let s1 := touch s u (.resolved tex)
    let r := enforceLimit limit s1.slots
    ({ slots := r.1, clock := s1.clock }, r.2.1, r.2.2)
  | .loadFail u => ({ slots := mapDelete s.slots u, clock := s.clock }, [], [])

def initialCache : CacheState := { slots := [], clock := 0 }

def runCache (limit : Nat) (evs : List GetEvent) : CacheState :=
  evs.foldl (fun s e => (step limit s e).1) initialCache

/-- Runs a trace accumulating every eviction and every disposal. -/
def runAcc (limit : Nat) (evs : List GetEvent) : CacheState × List CacheSlot × List Nat :=
  evs.foldl
    (fun acc e =>
      let r := step limit acc.1 e
      (r.1, acc.2.1 ++ r.2.1, acc.2.2 ++ r.2.2))
    (initialCache, [], [])

/-- Number of resolved (`{ texture }`) entries in the store. -/
def resolvedCount (c : List CacheSlot) : Nat :=
  c.countP (fun s => (s.entry.texture).isSome)

/-- One step respects LRU order when the slots it evicts, in eviction order,
followed by the surviving slots, are ordered by last touch: every evicted
entry was touched no later than anything it is evicted before and than every
survivor. -/
def lruStepOk (limit : Nat) (s : CacheState) (e : GetEvent) : Bool :=
  decide (List.Pairwise (fun a b => a.lastTouch ≤ b.lastTouch)
    ((step limit s e).2.1 ++ (step limit s e).1.slots))

def lruRunOk (limit : Nat) : CacheState → List GetEvent → Bool
  | _, [] => true
  | s, e :: t => lruStepOk limit s e && lruRunOk limit (step limit s e).1 t

/-! ## Video-variant get effect (VideoGalleryThumb)

Unlike the image variant, a miss first probes for a same-named poster image
(`for ext of ['.png','.jpg','.jpeg','.webp'] { await fetch(HEAD) ... }`).
During that probe phase the cache holds no entry for the URL; only the
video-extraction fallback stores `{ promise }` before suspending.  The effect
is embedded as a coroutine: `VidTask` is the program counter at each `await`,
`vidStep` consumes the event a suspended task was waiting for.  The `Nat`
result counts underlying thumbnail loads started by the step
(`loadScaledThumbnailTexture` / `loadScaledVideoThumbnailTexture` calls). -/

inductive VidTask where
  | start
  | probing (remainingExts : Nat)
  | loadingPoster
  | loadingVideo
  | done
deriving DecidableEq, Repr

inductive VidEvent where
  | begin
  | probeOk
  | probeFail
  | posterDone (tex : Nat)
  | videoDone (tex : Nat)
  | videoFail
deriving DecidableEq, Repr

/-- One suspension-to-suspension step of the `VideoGalleryThumb` effect for
URL `u`.  `load` is the identifier of the video load this task would start.
Events that a task is not waiting for leave everything unchanged. -/
def vidStep (limit : Nat) (c : CacheState) (u : String) (t : VidTask) (load : Nat) :
    VidEvent → CacheState × VidTask × Nat
  | .begin =>
    match t, mapGet c.slots u with
    | .start, some (.resolved tex) => (touch c u (.resolved tex), .done, 0)
    | .start, some (.pending _) => (c, .done, 0)
    | .start, none => (c, .probing 4, 0)
    | _, _ => (c, t, 0)
  | .probeOk =>
    match t with
    | .probing _ => (c, .loadingPoster, 1)
    | _ => (c, t, 0)
  | .probeFail =>
    match t with
    | .probing (n + 1) =>
      if n = 0 then
        ({ slots := mapSet c.slots u (.pending load) c.clock, clock := c.clock + 1 },
          .loadingVideo, 1)
      else (c, .probing n, 0)
    | _ => (c, t, 0)
  | .posterDone tex =>
    match t with
    | .loadingPoster =>
      let s1 := touch c u (.resolved tex)
      let r := enforceLimit limit s1.slots
      ({ slots := r.1, clock := s1.clock }, .done, 0)
    | _ => (c, t, 0)
  | .videoDone tex =>
    match t with
    | .loadingVideo =>
      let s1 := touch c u (.resolved tex)
      let r := enforceLimit limit s1.slots
      ({ slots := r.1, clock := s1.clock }, .done, 0)
    | _ => (c, t, 0)
  | .videoFail =>
    match t with
    | .loadingVideo => ({ slots := mapDelete c.slots u, clock := c.clock }, .done, 0)
    | _ => (c, t, 0)

/-- Two concurrent `VideoGalleryThumb` effects for the same URL, driven by a
schedule: `true` delivers the event to the first task, `false` to the second.
Returns the cache, both program counters, and the total number of underlying
loads started. -/
def vid2Run (limit : Nat) (u : String) (sched : List (Bool × VidEvent)) :
    CacheState × VidTask × VidTask × Nat :=
  sched.foldl
    (fun st ev =>
      if ev.1 then
        let r := vidStep limit st.1 u st.2.1 1 ev.2
        (r.1, r.2.1, st.2.2.1, st.2.2.2 + r.2.2)
      else
        let r := vidStep limit st.1 u st.2.2.1 2 ev.2
        (r.1, st.2.1, r.2.1, st.2.2.2 + r.2.2))
    (initialCache, .start, .start, 0)

/-- The schedule in which the second `get` for the same URL starts while the
first is awaiting its poster `HEAD` probe, and both probes then succeed. -/
def posterOverlapSched : List (Bool × VidEvent) :=
  [(true, .begin), (false, .begin), (true, .probeOk), (false, .probeOk),
   (true, .posterDone 7), (false, .posterDone 8)]

/-! ## Drag controller (Window onDown / onMove / onUp, VRScene.jsx)

Geometry is over an arbitrary field `K` (instantiated at `ℚ` for concrete
runs and at `ℝ` where trigonometry is involved).  `Parent` packages the
ancestor transform: `toLocal` is `parent.worldToLocal`, `toWorld` the inverse
mapping by which the renderer produces `getWorldPosition` from the group's
local `position`.  An absent parent is the identity transform pair.
A pointer event's `pointerId` is `none` when the event carries no identifier
(JS `undefined`); `dragPointerId.current` starts out as JS `null`, also
`none`.  The JS guard `dragPointerId.current != null && e.pointerId !==
dragPointerId.current` rejects an event exactly when a pointer id is recorded
and the event's id differs from it. -/

structure Vec3 (K : Type) where
  x : K
  y : K
  z : K
deriving DecidableEq, Repr

instance {K : Type} [Add K] : Add (Vec3 K) :=
  ⟨fun a b => ⟨a.x + b.x, a.y + b.y, a.z + b.z⟩⟩

instance {K : Type} [Sub K] : Sub (Vec3 K) :=
  ⟨fun a b => ⟨a.x - b.x, a.y - b.y, a.z - b.z⟩⟩

instance {K : Type} [Zero K] : Zero (Vec3 K) := ⟨⟨0, 0, 0⟩⟩

/-- `v.multiplyScalar(a)` -/
def Vec3.scale {K : Type} [Mul K] (a : K) (v : Vec3 K) : Vec3 K :=
  ⟨a * v.x, a * v.y, a * v.z⟩

/-- `a.dot(b)` -/
def Vec3.dot {K : Type} [Mul K] [Add K] (a b : Vec3 K) : K :=
  a.x * b.x + a.y * b.y + a.z * b.z

structure Parent (K : Type) where
  toLocal : Vec3 K → Vec3 K
  toWorld : Vec3 K → Vec3 K

structure PointerEvent (K : Type) where
  pointerId : Option Nat
  point : Vec3 K
deriving DecidableEq, Repr

structure DragState (K : Type) where
  dragging : Bool
  dragPointerId : Option Nat
  offset : Vec3 K
deriving DecidableEq, Repr

/-- The full per-window state the drag handlers touch: the drag refs and the
group's position in its parent's local space. -/
structure WinState (K : Type) where
  drag : DragState K
  localPos : Vec3 K
deriving DecidableEq, Repr

/-- `onDown`: unconditionally starts a drag — records the event's pointer id,
captures the pointer, and stores `offset = worldPosition - e.point`.  The
position is not changed (only the yaw is re-applied, which this position
model does not track). -/
def onDown {K : Type} [Field K] (p : Parent K) (localPos : Vec3 K)
    (e : PointerEvent K) : DragState K :=
  { dragging := true
    dragPointerId := e.pointerId
    offset := p.toWorld localPos - e.point }

/-- `onMove`: ignored unless dragging; ignored when a pointer id is recorded
and the event's id differs; otherwise the new world position `e.point +
offset` is converted by `parent.worldToLocal` and assigned. -/
def onMove {K : Type} [Field K] (p : Parent K) (localPos : Vec3 K)
    (s : DragState K) (e : PointerEvent K) : Vec3 K :=
  if s.dragging = false then localPos
  else
    match s.dragPointerId with
    | some pid =>
      if e.pointerId = some pid then p.toLocal (e.point + s.offset) else localPos
    | none => p.toLocal (e.point + s.offset)

/-- `onUp` (also bound to `onPointerCancel`): ignored when a pointer id is
recorded and the event's id differs; otherwise ends the drag and releases
the pointer capture. -/
def onUp {K : Type} (s : DragState K) (e : PointerEvent K) : DragState K :=
  match s.dragPointerId with
  | some pid =>
    if e.pointerId = some pid then { s with dragging := false, dragPointerId := none }
    else s
  | none => { s with dragging := false, dragPointerId := none }

inductive DragEvent (K : Type) where
  | down (e : PointerEvent K)
  | move (e : PointerEvent K)
  | up (e : PointerEvent K)
  | cancel (e : PointerEvent K)
deriving DecidableEq, Repr

def dragStep {K : Type} [Field K] (p : Parent K) (w : WinState K) :
    DragEvent K → WinState K
  | .down e => { w with drag := onDown p w.localPos e }
  | .move e => { w with localPos := onMove p w.localPos w.drag e }
  | .up e => { w with drag := onUp w.drag e }
  | .cancel e => { w with drag := onUp w.drag e }

/-- A whole drag gesture: a press at `p0`, the listed move hit points, and a
release at the last move point, all carrying pointer id `pid`. -/
def dragGesture {K : Type} [Field K] (p : Parent K) (w0 : WinState K)
    (pid : Nat) (p0 : Vec3 K) (moves : List (Vec3 K)) (lastPt : Vec3 K) : WinState K :=
  dragStep p
    ((moves ++ [lastPt]).foldl
      (fun w m => dragStep p w (.move ⟨some pid, m⟩))
      (dragStep p w0 (.down ⟨some pid, p0⟩)))
    (.up ⟨some pid, lastPt⟩)

/-! ## Window layout (placeWindows, VRScene.jsx)

The trigonometric primitives the code delegates to (`Math.sin`, `Math.cos`,
`Math.PI / 2`, and `yawToFace(camera, ·)`) are passed in as parameters
`sin`, `cos`, `halfPi`, `yawTo`, which keeps the embedding executable; the
theorems assume exactly the identities those primitives satisfy on `ℝ`. -/

def UI_PIXEL_SIZE {K : Type} [Field K] : K := 16 / 10000

def WINDOW_SIDE_SPACING {K : Type} [Field K] : K := 19 / 10

def WINDOW_SINGLE_SPACING {K : Type} [Field K] : K := 5 / 4

/-- `windowWidthPx = { video: 1000, gallery: 1000, videoGallery: 1000 }`,
read as `windowWidthPx[k] ?? 1000`. -/
def windowWidthPx (k : String) : Nat :=
  if k = "video" then 1000
  else if k = "gallery" then 1000
  else if k = "videoGallery" then 1000
  else 1000

/-- `halfWidthWorld = (k) => ((windowWidthPx[k] ?? 1000) * UI_PIXEL_SIZE) / 2` -/
def halfWidthWorld {K : Type} [Field K] (k : String) : K :=
  ((windowWidthPx k : K) * UI_PIXEL_SIZE) / 2

/-- `const slots = [0, 1, -1, 2, -2, 3, -3]` -/
def slotsList : List Int := [0, 1, -1, 2, -2, 3, -3]

/-- `Math.ceil(i / 2)` for natural `i`. -/
def ceilHalf (i : Nat) : Int := Int.ofNat ((i + 1) / 2)

/-- `slots[i] ?? (i % 2 === 0 ? Math.ceil(i / 2) : -Math.ceil(i / 2))` -/
def slotFor (i : Nat) : Int :=
  (slotsList.get? i).getD (if i % 2 = 0 then ceilHalf i else -ceilHalf i)

structure PlacedWindow (K : Type) where
  k : String
  slot : Int
  p : Vec3 K
deriving DecidableEq, Repr

/-- The `openKeys.map((k, i) => ...)` pass: window `i` gets slot `slotFor i`
and base position `dock + (0, 0.95, 0) + right * (slot * spacing)`. -/
def assignSlots {K : Type} [Field K] (right : Vec3 K) (spacing : K)
    (dockWorld : Vec3 K) : Nat → List String → List (PlacedWindow K)
  | _, [] => []
  | i, k :: rest =>
    ⟨k, slotFor i,
      ⟨dockWorld.x, dockWorld.y + 95 / 100, dockWorld.z⟩ +
        Vec3.scale (((slotFor i : Int) : K) * spacing) right⟩ ::
      assignSlots right spacing dockWorld (i + 1) rest

/-- One `alignPass()`: every window other than the center (the code skips
both `w === center` and `!w.slot`; the center is the unique slot-0 window)
is translated along `toCamera` so that its inner edge meets the matching
center edge. -/
def alignPass {K : Type} [Field K] (sin cos : K → K) (halfPi : K)
    (yawTo : Vec3 K → K) (toCamera centerEdgeRight centerEdgeLeft : Vec3 K)
    (ws : List (PlacedWindow K)) : List (PlacedWindow K) :=
  ws.map (fun w =>
    if w.slot = 0 then w
    else
      let yw := yawTo w.p
      let rw : Vec3 K := ⟨sin (yw + halfPi), 0, cos (yw + halfPi)⟩
      let hw := halfWidthWorld w.k
      if 0 < w.slot then
        let innerEdge := w.p + Vec3.scale (-hw) rw
        let delta := toCamera.dot centerEdgeRight - toCamera.dot innerEdge
        { w with p := w.p + Vec3.scale delta toCamera }
      else
        let innerEdge := w.p + Vec3.scale hw rw
        let delta := toCamera.dot centerEdgeLeft - toCamera.dot innerEdge
        { w with p := w.p + Vec3.scale delta toCamera })

/-- `placeWindows(openKeys)` up to the final mapping: slot assignment, then
the alignment pass run twice (the center's edge positions are computed once,
before both passes, and the center itself never moves). -/
def placedWindows {K : Type} [Field K] (sin cos : K → K) (halfPi : K)
    (yawTo : Vec3 K → K) (dockWorld : Vec3 K) (openKeys : List String) :
    List (PlacedWindow K) :=
  if openKeys = [] then []
  else
    let baseYaw := yawTo dockWorld
    let right : Vec3 K := ⟨sin (baseYaw + halfPi), 0, cos (baseYaw + halfPi)⟩
    let toCamera : Vec3 K := ⟨sin baseYaw, 0, cos baseYaw⟩
    let spacing : K :=
      if 1 < openKeys.length then WINDOW_SIDE_SPACING else WINDOW_SINGLE_SPACING
    let placed := assignSlots right spacing dockWorld 0 openKeys
    let center := (placed.find? (fun w => w.slot = 0)).getD (placed.headD ⟨"", 0, 0⟩)
    let centerYaw := yawTo center.p
    let centerRight : Vec3 K := ⟨sin (centerYaw + halfPi), 0, cos (centerYaw + halfPi)⟩
    let centerHalf := halfWidthWorld center.k
    let centerEdgeRight := center.p + Vec3.scale centerHalf centerRight
    let centerEdgeLeft := center.p + Vec3.scale (-centerHalf) centerRight
    alignPass sin cos halfPi yawTo toCamera centerEdgeRight centerEdgeLeft
      (alignPass sin cos halfPi yawTo toCamera centerEdgeRight centerEdgeLeft placed)

/-- The mapping `placeWindows` hands to `setWindowPositions`: an empty open
set yields the empty mapping, otherwise each key maps to its final position. -/
def placeWindows {K : Type} [Field K] (sin cos : K → K) (halfPi : K)
    (yawTo : Vec3 K → K) (dockWorld : Vec3 K) (openKeys : List String) :
    List (String × Vec3 K) :=
  (placedWindows sin cos halfPi yawTo dockWorld openKeys).map (fun w => (w.k, w.p))

/-- Position of window `k` in a mapping (zero when absent). -/
def posOf {K : Type} [Field K] (m : List (String × Vec3 K)) (k : String) : Vec3 K :=
  (m.lookup k).getD 0

/-- `setWindowPositions(mapping)`: the layout effect replaces the previous
positions wholesale; the previous mapping does not feed into the new one. -/
def layoutStep {K : Type} [Field K] (sin cos : K → K) (halfPi : K)
    (yawTo : Vec3 K → K) (dockWorld : Vec3 K) (openKeys : List String)
    (_prev : List (String × Vec3 K)) : List (String × Vec3 K) :=
  placeWindows sin cos halfPi yawTo dockWorld openKeys

/-- The `setOpenOrder` effect (VRScene.jsx): keeps the still-open keys in
order and appends any newly opened key at the back. -/
def openOrderStep (prev : List String)
    (videoOpen galleryOpen videoGalleryOpen : Bool) : List String :=
  let next := prev.filter (fun k =>
    if k = "video" then videoOpen
    else if k = "gallery" then galleryOpen
    else if k = "videoGallery" then videoGalleryOpen
    else false)
  let next1 := if videoOpen && !(next.contains "video") then next ++ ["video"] else next
  let next2 :=
    if galleryOpen && !(next1.contains "gallery") then next1 ++ ["gallery"] else next1
  if videoGalleryOpen && !(next2.contains "videoGallery") then
    next2 ++ ["videoGallery"]
  else next2

/-! ## Yaw-facing solver (yawToFace, VRScene.jsx)

`Math.atan2` is a platform primitive; `atan2` is its standard mathematical
model (parameterised over `arctan` and `π`, instantiated with `Real.arctan`
and `Real.pi` in the theorems):  `atan2(y, x)` is `arctan(y/x)` for `x > 0`,
`arctan(y/x) ± π` for `x < 0`, `±π/2` on the positive/negative `y` axis, and
`0` at the origin — which is also what JS returns for `atan2(0, 0)`. -/

def atan2 {K : Type} [LinearOrderedField K] (arctan : K → K) (pi : K)
    (y x : K) : K :=
  if 0 < x then arctan (y / x)
  else if x < 0 then
    if 0 ≤ y then arctan (y / x) + pi else arctan (y / x) - pi
  else if 0 < y then pi / 2
  else if y < 0 then -(pi / 2)
  else 0

/-- `yawToFace(camera, worldPos)`: `dx = camPos.x - worldPos.x`,
`dz = camPos.z - worldPos.z`, `Math.atan2(dx, dz)`. -/
def yawToFace {K : Type} [LinearOrderedField K] (arctan : K → K) (pi : K)
    (camPos worldPos : Vec3 K) : K :=
  atan2 arctan pi (camPos.x - worldPos.x) (camPos.z - worldPos.z)

/-! ## Dock placement on entering XR (VRScene.jsx)

The `useFrame` callback re-places the dock when `gl.xr.isPresenting` rises
from false to true, guarded by `dockMoved` (set by `dockDown`, the dock drag
press handler, and never reset).  The dock pose is abstract (`P`): a frame
that places the dock sets it to `placeAt`, the pose `placeDockAtCamera()`
computes from the camera that frame (it also snapshots the saved pose and
sets `dockPlaced`). -/

structure DockState (P : Type) where
  wasPresenting : Bool
  dockMoved : Bool
  dockPlaced : Bool
  pose : P
  savedPose : P
deriving DecidableEq, Repr

/-- One `useFrame` tick: `if (!wasPresenting && isPresenting) { if
(!dockMoved) placeDockAtCamera() } wasPresenting = isPresenting`.  The `Bool`
result reports whether placement fired. -/
def frameStep {P : Type} (placeAt : P) (s : DockState P) (isPresenting : Bool) :
    DockState P × Bool :=
  if !s.wasPresenting && isPresenting && !s.dockMoved then
    ({ s with
        pose := placeAt
        savedPose := placeAt
        dockPlaced := true
        wasPresenting := isPresenting }, true)
  else ({ s with wasPresenting := isPresenting }, false)

inductive DockEvent (P : Type) where
  | frame (placeAt : P) (isPresenting : Bool)
  | dragStart
  | dragMove (pose : P)

/-- `dragStart` is `dockDown` (which sets `dockMoved.current = true` and does
not move the dock); `dragMove` is `dockMove` updating the pose. -/
def dockStep {P : Type} (s : DockState P) : DockEvent P → DockState P × Bool
  | .frame placeAt b => frameStep placeAt s b
  | .dragStart => ({ s with dockMoved := true }, false)
  | .dragMove pose => ({ s with pose := pose }, false)

/-- Runs dock events, counting automatic placements. -/
def runDock {P : Type} (s : DockState P) : List (DockEvent P) → DockState P × Nat
  | [] => (s, 0)
  | e :: t =>
    let r := dockStep s e
    let rest := runDock r.1 t
    (rest.1, (if r.2 then 1 else 0) + rest.2)

/-- Number of not-presenting → presenting transitions in a sequence of
`isPresenting` samples, given the previous sample. -/
def risingEdges (prev : Bool) : List Bool → Nat
  | [] => 0
  | b :: t => (if !prev && b then 1 else 0) + risingEdges b t

/-- A frames-only run (no drag events), one placement pose per frame. -/
def runFrames {P : Type} (placeAt : P) (s : DockState P) (bs : List Bool) :
    DockState P × Nat :=
  runDock s (bs.map (fun b => .frame placeAt b))

/-! ## Panorama selection (VRScene.jsx line 632 and usePanoList) -/

/-- `const src = panos.length ? panos[(panoIndex % panos.length +
panos.length) % panos.length] : '/assets/foto.png'`.  JS `%` is the
truncated remainder, `Int.tmod`; the in-bounds array read is embedded as
`getD` with a junk default (the safety theorem shows the index is in
bounds). -/
def panoSrcSelect (panoIndex : Int) (panos : List String) : String :=
  if panos.length ≠ 0 then
    panos.getD
      (((panoIndex.tmod (panos.length : Int)) + (panos.length : Int)).tmod
        (panos.length : Int)).toNat ""
  else "/assets/foto.png"

/-- `usePanoList`: `items.length ? items : ['/assets/foto.png']`. -/
def usePanoListResult (items : List String) : List String :=
  if items.length ≠ 0 then items else ["/assets/foto.png"]

/-! ## Helper lemmas -/

theorem tmod_bounds (a : Int) (k : Nat) (hk : 0 < k) :
    -(k : Int) < a.tmod (k : Int) ∧ a.tmod (k : Int) < (k : Int) := by
  have hkk : (k : Int) = Int.ofNat k := rfl
  cases a with
  | ofNat m =>
    have h : (Int.ofNat m).tmod (Int.ofNat k) = Int.ofNat (m % k) := by simp [Int.tmod]
    have h2 : m % k < k := Nat.mod_lt _ hk
    rw [hkk, h]
    simp only [Int.ofNat_eq_natCast]
    omega
  | negSucc m =>
    have h : (Int.negSucc m).tmod (Int.ofNat k) = -Int.ofNat ((m + 1) % k) := by
      simp [Int.tmod]
    have h2 : (m + 1) % k < k := Nat.mod_lt _ hk
    rw [hkk, h]
    simp only [Int.ofNat_eq_natCast]
    omega

theorem tmod_shift_bounds (a : Int) (k : Nat) (hk : 0 < k) :
    0 ≤ ((a.tmod (k : Int)) + (k : Int)).tmod (k : Int) ∧
      ((a.tmod (k : Int)) + (k : Int)).tmod (k : Int) < (k : Int) := by
  obtain ⟨h1, h2⟩ := tmod_bounds a k hk
  have hnn : 0 ≤ a.tmod (k : Int) + (k : Int) := by omega
  rw [Int.tmod_eq_emod hnn (by positivity)]
  have hkpos : (0 : Int) < (k : Int) := by exact_mod_cast hk
  exact ⟨Int.emod_nonneg _ (ne_of_gt hkpos), Int.emod_lt_of_pos _ hkpos⟩

/-! ## Claim theorems -/

/-- C7: the yaw-facing solver returns `atan2(dx, dz)` for the horizontal
offsets `dx, dz` from target to viewer; viewer `(0,0,5)` against target
`(0,0,0)` yields yaw `0`; a degenerate zero-horizontal-distance input yields
`0` by convention.  The solver is a total pure function (no error case). -/
theorem yawToFace_spec :
    (∀ viewer target : Vec3 ℝ,
        yawToFace Real.arctan Real.pi viewer target =
          atan2 Real.arctan Real.pi (viewer.x - target.x) (viewer.z - target.z))
    ∧ yawToFace Real.arctan Real.pi ⟨0, 0, 5⟩ ⟨0, 0, 0⟩ = 0
    ∧ (∀ viewer target : Vec3 ℝ, viewer.x = target.x → viewer.z = target.z →
        yawToFace Real.arctan Real.pi viewer target = 0) := by
  refine ⟨fun v t => rfl, ?_, ?_⟩
  · show atan2 Real.arctan Real.pi (0 - 0) (5 - 0) = 0
    norm_num [atan2, Real.arctan_zero]
  · intro v t hx hz
    show atan2 Real.arctan Real.pi (v.x - t.x) (v.z - t.z) = 0
    rw [hx, hz]
    norm_num [atan2]

/-- C6: the layout applied to an empty open set yields the empty mapping, and
re-running the layout effect with unchanged inputs yields identical
positions: the previous mapping never feeds into the new one, so the update
is idempotent. -/
theorem layout_empty_and_idempotent :
    (∀ (K : Type) [Field K] (sin cos : K → K) (halfPi : K)
        (yawTo : Vec3 K → K) (dock : Vec3 K),
        placeWindows sin cos halfPi yawTo dock [] = [])
    ∧ (∀ (K : Type) [Field K] (sin cos : K → K) (halfPi : K)
        (yawTo : Vec3 K → K) (dock : Vec3 K) (openKeys : List String)
        (prev : List (String × Vec3 K)),
        layoutStep sin cos halfPi yawTo dock openKeys
            (layoutStep sin cos halfPi yawTo dock openKeys prev) =
          layoutStep sin cos halfPi yawTo dock openKeys prev) := by
  constructor
  · intro K _ sin cos halfPi yawTo dock
    simp [placeWindows, placedWindows]
  · intro K _ sin cos halfPi yawTo dock openKeys prev
    rfl

/-- C10: for every integer panorama index and non-empty list of `n`
panoramas, the selected source is the list element at the normalised index
`((index tmod n) + n) tmod n`, which is always in bounds (so selection never
reads out of range); the empty list falls back to `/assets/foto.png`. -/
theorem pano_selection_safe :
    (∀ (i : Int) (panos : List String), panos ≠ [] →
        0 ≤ ((i.tmod (panos.length : Int)) + (panos.length : Int)).tmod (panos.length : Int)
        ∧ ∃ h : (((i.tmod (panos.length : Int)) + (panos.length : Int)).tmod
              (panos.length : Int)).toNat < panos.length,
            panoSrcSelect i panos =
              panos.get
                ⟨(((i.tmod (panos.length : Int)) + (panos.length : Int)).tmod
                    (panos.length : Int)).toNat, h⟩
            ∧ panoSrcSelect i panos ∈ panos)
    ∧ (∀ i : Int, panoSrcSelect i [] = "/assets/foto.png") := by
  constructor
  · intro i panos hne
    have hk : 0 < panos.length := List.length_pos.mpr hne
    obtain ⟨h0, hlt⟩ := tmod_shift_bounds i panos.length hk
    have hidx : (((i.tmod (panos.length : Int)) + (panos.length : Int)).tmod
        (panos.length : Int)).toNat < panos.length := by omega
    refine ⟨h0, hidx, ?_, ?_⟩
    · show panoSrcSelect i panos = panos.get ⟨_, hidx⟩
      unfold panoSrcSelect
      rw [if_pos (by omega)]
      rw [List.getD_eq_getElem?_getD, List.getElem?_eq_getElem hidx]
      rfl
    · have : panoSrcSelect i panos = panos.get ⟨_, hidx⟩ := by
        unfold panoSrcSelect
        rw [if_pos (by omega)]
        rw [List.getD_eq_getElem?_getD, List.getElem?_eq_getElem hidx]
        rfl
      rw [this]
      exact panos.get_mem _ hidx
  · intro i
    rfl

/-! ### Drag controller theorems -/

theorem moveFold_localPos {K : Type} [Field K] (p : Parent K) (pid : Nat)
    (off : Vec3 K) (ms : List (Vec3 K)) :
    ∀ (w : WinState K), w.drag = ⟨true, some pid, off⟩ → ∀ lastPt : Vec3 K,
      ((ms ++ [lastPt]).foldl (fun w m => dragStep p w (.move ⟨some pid, m⟩)) w) =
        ⟨w.drag, p.toLocal (lastPt + off)⟩ := by
  induction ms with
  | nil =>
    intro w hw lastPt
    simp [dragStep, onMove, hw]
  | cons m ms ih =>
    intro w hw lastPt
    simp only [List.cons_append, List.foldl_cons]
    rw [show dragStep p w (.move ⟨some pid, m⟩) =
        (⟨w.drag, p.toLocal (m + off)⟩ : WinState K) by simp [dragStep, onMove, hw]]
    rw [ih ⟨w.drag, p.toLocal (m + off)⟩ (by simpa using hw) lastPt]

/-- C4: a drag gesture press - move ... move - release, all events carrying
the pointer id recorded at press, leaves the dragged object at
`lastMovePoint + offset`, where `offset` is the object's world position at
press minus the press hit point; the position is applied after conversion
into the parent's local coordinate space (`parent.worldToLocal`). -/
theorem drag_final_position {K : Type} [Field K] (p : Parent K) (w0 : WinState K)
    (pid : Nat) (p0 : Vec3 K) (moves : List (Vec3 K)) (lastPt : Vec3 K)
    (hinv : ∀ v, p.toWorld (p.toLocal v) = v) :
    (dragGesture p w0 pid p0 moves lastPt).localPos =
      p.toLocal (lastPt + (p.toWorld w0.localPos - p0))
    ∧ p.toWorld (dragGesture p w0 pid p0 moves lastPt).localPos =
      lastPt + (p.toWorld w0.localPos - p0) := by
  have hdown : (dragStep p w0 (.down ⟨some pid, p0⟩)).drag =
      ⟨true, some pid, p.toWorld w0.localPos - p0⟩ := by
    simp [dragStep, onDown]
  have hfold := moveFold_localPos p pid (p.toWorld w0.localPos - p0) moves
    (dragStep p w0 (.down ⟨some pid, p0⟩)) hdown lastPt
  have hloc : (dragGesture p w0 pid p0 moves lastPt).localPos =
      p.toLocal (lastPt + (p.toWorld w0.localPos - p0)) := by
    unfold dragGesture
    rw [hfold]
    simp [dragStep]
  exact ⟨hloc, by rw [hloc, hinv]⟩

theorem Vec3.add_def {K : Type} [Add K] (a b : Vec3 K) :
    a + b = ⟨a.x + b.x, a.y + b.y, a.z + b.z⟩ := rfl

theorem Vec3.sub_def {K : Type} [Sub K] (a b : Vec3 K) :
    a - b = ⟨a.x - b.x, a.y - b.y, a.z - b.z⟩ := rfl

def dragParentQ : Parent ℚ := ⟨fun v => v - ⟨1, 2, 3⟩, fun v => v + ⟨1, 2, 3⟩⟩

/-- Witness for C4 at a concrete translation parent and gesture over `ℚ`. -/
theorem drag_final_position_witness :
    (dragGesture dragParentQ ⟨⟨false, none, 0⟩, ⟨0, 0, 0⟩⟩ 1 ⟨5, 0, 0⟩
        [⟨6, 0, 0⟩] ⟨7, 1, 0⟩).localPos =
      dragParentQ.toLocal (⟨7, 1, 0⟩ + (dragParentQ.toWorld ⟨0, 0, 0⟩ - ⟨5, 0, 0⟩))
    ∧ dragParentQ.toWorld
        (dragGesture dragParentQ ⟨⟨false, none, 0⟩, ⟨0, 0, 0⟩⟩ 1 ⟨5, 0, 0⟩
          [⟨6, 0, 0⟩] ⟨7, 1, 0⟩).localPos =
      ⟨7, 1, 0⟩ + (dragParentQ.toWorld ⟨0, 0, 0⟩ - ⟨5, 0, 0⟩) :=
  drag_final_position dragParentQ ⟨⟨false, none, 0⟩, ⟨0, 0, 0⟩⟩ 1 ⟨5, 0, 0⟩
    [⟨6, 0, 0⟩] ⟨7, 1, 0⟩
    (by
      intro v
      cases v
      simp [dragParentQ, Vec3.add_def, Vec3.sub_def])

/-- C9 (amended): while a drag with a recorded pointer id is in progress,
move and release/cancel events whose identifier differs from the recorded
one — including events with no identifier — are complete no-ops on both the
drag state and the object's pose, and are silently ignored.  Press events,
however, are never identifier-filtered: any press (re)captures the drag,
overwriting the recorded pointer id and offset. -/
theorem drag_event_filtering :
    (∀ (K : Type) [Field K] (p : Parent K) (w : WinState K) (pid : Nat)
        (e : PointerEvent K), w.drag.dragPointerId = some pid →
        e.pointerId ≠ some pid →
        dragStep p w (.move e) = w ∧ dragStep p w (.up e) = w
        ∧ dragStep p w (.cancel e) = w)
    ∧ (∀ (K : Type) [Field K] (p : Parent K) (w : WinState K) (e : PointerEvent K),
        (dragStep p w (.down e)).drag =
          { dragging := true, dragPointerId := e.pointerId,
            offset := p.toWorld w.localPos - e.point }) := by
  constructor
  · intro K _ p w pid e hid hne
    refine ⟨?_, ?_, ?_⟩
    · cases hd : w.drag.dragging <;> simp [dragStep, onMove, hid, hne, hd]
    · simp [dragStep, onUp, hid, hne]
    · simp [dragStep, onUp, hid, hne]
  · intro K _ p w e
    rfl

/-- C9 counterexample to the claim as stated: with a drag in progress for
pointer 1, a press carrying pointer id 2 is not ignored — it changes the
drag state, re-capturing the drag for pointer 2. -/
theorem down_hijacks_drag :
    ((dragStep dragParentQ ⟨⟨false, none, 0⟩, ⟨0, 0, 0⟩⟩
        (.down ⟨some 1, ⟨5, 0, 0⟩⟩)).drag.dragPointerId = some 1)
    ∧ ((dragStep dragParentQ
          (dragStep dragParentQ ⟨⟨false, none, 0⟩, ⟨0, 0, 0⟩⟩
            (.down ⟨some 1, ⟨5, 0, 0⟩⟩))
          (.down ⟨some 2, ⟨9, 9, 9⟩⟩)).drag.dragPointerId = some 2) := ⟨rfl, rfl⟩


/-! ### Dock placement theorems -/

/-- C8: a `useFrame` tick fires automatic dock placement exactly when the
session transitions from not-presenting to presenting and the user has not
dragged the dock; after a drag began (`dockMoved`), every tick leaves the
pose unchanged and fires nothing, forever; an immediately following
presenting tick never re-fires; and over any frames-only run without drags
the number of placements equals the number of rising transitions. -/
theorem dock_autoplace_on_xr_transition :
    (∀ (P : Type) (placeAt : P) (s : DockState P) (b : Bool),
        (frameStep placeAt s b).2 = (!s.wasPresenting && b && !s.dockMoved))
    ∧ (∀ (P : Type) (placeAt : P) (s : DockState P) (b : Bool),
        s.dockMoved = true →
        frameStep placeAt s b = ({ s with wasPresenting := b }, false))
    ∧ (∀ (P : Type) (pa1 pa2 : P) (s : DockState P),
        (frameStep pa2 (frameStep pa1 s true).1 true).2 = false)
    ∧ (∀ (P : Type) (s : DockState P), (dockStep s .dragStart).1.dockMoved = true)
    ∧ (∀ (P : Type) (s : DockState P) (evs : List (DockEvent P)),
        s.dockMoved = true →
        (runDock s evs).1.dockMoved = true ∧ (runDock s evs).2 = 0)
    ∧ (∀ (P : Type) (placeAt : P) (s : DockState P) (bs : List Bool),
        s.dockMoved = false →
        (runFrames placeAt s bs).2 = risingEdges s.wasPresenting bs) := by
  refine ⟨?_, ?_, ?_, ?_, ?_, ?_⟩
  · intro P pa s b
    cases h : (!s.wasPresenting && b && !s.dockMoved) <;> simp [frameStep, h]
  · intro P pa s b h
    simp [frameStep, h]
  · intro P pa1 pa2 s
    have hw : (frameStep pa1 s true).1.wasPresenting = true := by
      unfold frameStep
      split <;> rfl
    generalize hx : (frameStep pa1 s true).1 = s1 at hw ⊢
    simp [frameStep, hw]
  · intro P s
    rfl
  · intro P s evs
    induction evs generalizing s with
    | nil => intro h; exact ⟨h, rfl⟩
    | cons e t ih =>
      intro h
      have hm : (dockStep s e).1.dockMoved = true := by
        cases e with
        | frame pa b =>
          show (frameStep pa s b).1.dockMoved = true
          unfold frameStep
          split <;> exact h
        | dragStart => rfl
        | dragMove q => exact h
      have hf : (dockStep s e).2 = false := by
        cases e with
        | frame pa b =>
          have hc : (!s.wasPresenting && b && !s.dockMoved) = false := by simp [h]
          show (frameStep pa s b).2 = false
          simp [frameStep, hc]
        | dragStart => rfl
        | dragMove q => rfl
      have hrest := ih _ hm
      simp only [runDock, hf]
      simpa using hrest
  · intro P pa s bs
    induction bs generalizing s with
    | nil => intro h; rfl
    | cons b t ih =>
      intro h
      have hm : (frameStep pa s b).1.dockMoved = false := by
        unfold frameStep
        split <;> exact h
      have hw : (frameStep pa s b).1.wasPresenting = b := by
        unfold frameStep
        split <;> rfl
      have hc : (frameStep pa s b).2 = (!s.wasPresenting && b) := by
        have h1 : (frameStep pa s b).2 = (!s.wasPresenting && b && !s.dockMoved) := by
          cases hx : (!s.wasPresenting && b && !s.dockMoved) <;> simp [frameStep, hx]
        rw [h1, h]
        simp
      have hrest := ih _ hm
      rw [hw] at hrest
      show (runDock s (.frame pa b :: t.map (fun b => .frame pa b))).2 =
        risingEdges s.wasPresenting (b :: t)
      simp only [runDock, dockStep, hc, risingEdges]
      rw [show (runDock (frameStep pa s b).1 (t.map (fun b => DockEvent.frame pa b))).2 =
        risingEdges b t from hrest]

/-! ### Window layout theorems -/

set_option maxHeartbeats 1000000 in
/-- C5: after opening "video" and then "gallery", the open-order effect
yields `["video", "gallery"]`; the layout assigns slots from the fixed
sequence `0, 1, -1, 2, -2, 3, -3` in open-order, so "video" gets slot 0 and
"gallery" slot 1; and along the dock's right axis (the code's
`right = (sin(baseYaw + pi/2), 0, cos(baseYaw + pi/2))`) "gallery" sits
exactly one multi-window spacing unit (`WINDOW_SIDE_SPACING`, used because
more than one window is open) from the dock position, while "video" sits at
offset 0 — the alignment passes only ever translate windows along the
`toCamera` axis, which is orthogonal to `right`.  Stated for any `sin`,
`cos`, `halfPi`, `yawTo` satisfying the listed identities; `Real.sin`,
`Real.cos`, `Real.pi / 2` satisfy them. -/
theorem layout_slots_video_gallery {K : Type} [Field K] (sin cos : K → K)
    (halfPi : K) (yawTo : Vec3 K → K) (dock : Vec3 K)
    (hsin : ∀ t, sin (t + halfPi) = cos t)
    (hcos : ∀ t, cos (t + halfPi) = -sin t)
    (hpyth : ∀ t, sin t * sin t + cos t * cos t = 1) :
    openOrderStep (openOrderStep [] true false false) true true false = ["video", "gallery"]
    ∧ (placedWindows sin cos halfPi yawTo dock ["video", "gallery"]).map
        (fun w => (w.k, w.slot)) = [("video", 0), ("gallery", 1)]
    ∧ Vec3.dot
        (posOf (placeWindows sin cos halfPi yawTo dock ["video", "gallery"]) "gallery" - dock)
        ⟨sin (yawTo dock + halfPi), 0, cos (yawTo dock + halfPi)⟩ = WINDOW_SIDE_SPACING
    ∧ Vec3.dot
        (posOf (placeWindows sin cos halfPi yawTo dock ["video", "gallery"]) "video" - dock)
        ⟨sin (yawTo dock + halfPi), 0, cos (yawTo dock + halfPi)⟩ = 0 := by
  refine ⟨rfl, ?_, ?_, ?_⟩
  · rfl
  · simp [placeWindows, placedWindows, assignSlots, alignPass, slotFor, slotsList,
      posOf, ceilHalf, Vec3.scale, Vec3.dot, Vec3.add_def, Vec3.sub_def, List.lookup]
    simp only [hsin, hcos]
    linear_combination WINDOW_SIDE_SPACING * hpyth (yawTo dock)
  · simp [placeWindows, placedWindows, assignSlots, alignPass, slotFor, slotsList,
      posOf, ceilHalf, Vec3.scale, Vec3.dot, Vec3.add_def, Vec3.sub_def, List.lookup]

/-- Witness for C5: the hypotheses hold for `Real.sin`, `Real.cos`,
`Real.pi / 2` and a concrete dock pose. -/
theorem layout_slots_video_gallery_witness :
    openOrderStep (openOrderStep [] true false false) true true false = ["video", "gallery"]
    ∧ (placedWindows Real.sin Real.cos (Real.pi / 2) (fun _ => 0) (⟨0, 0, 0⟩ : Vec3 ℝ)
        ["video", "gallery"]).map (fun w => (w.k, w.slot)) = [("video", 0), ("gallery", 1)]
    ∧ Vec3.dot
        (posOf (placeWindows Real.sin Real.cos (Real.pi / 2) (fun _ => 0) ⟨0, 0, 0⟩
            ["video", "gallery"]) "gallery" - ⟨0, 0, 0⟩)
        ⟨Real.sin (0 + Real.pi / 2), 0, Real.cos (0 + Real.pi / 2)⟩ = WINDOW_SIDE_SPACING
    ∧ Vec3.dot
        (posOf (placeWindows Real.sin Real.cos (Real.pi / 2) (fun _ => 0) ⟨0, 0, 0⟩
            ["video", "gallery"]) "video" - ⟨0, 0, 0⟩)
        ⟨Real.sin (0 + Real.pi / 2), 0, Real.cos (0 + Real.pi / 2)⟩ = 0 :=
  layout_slots_video_gallery Real.sin Real.cos (Real.pi / 2) (fun _ => 0) ⟨0, 0, 0⟩
    (fun t => Real.sin_add_pi_div_two t)
    (fun t => Real.cos_add_pi_div_two t)
    (fun t => by linear_combination Real.sin_sq_add_cos_sq t)

/-! ### Cache lemmas -/

theorem enforceLimit_eq (limit : Nat) (l : List CacheSlot) :
    enforceLimit limit l =
      (l.drop (l.length - limit), l.take (l.length - limit),
        (l.take (l.length - limit)).filterMap (fun s => s.entry.texture)) := by
  induction l with
  | nil => simp [enforceLimit]
  | cons a t ih =>
    by_cases h : t.length + 1 ≤ limit
    · have h0 : (a :: t).length - limit = 0 := by simp; omega
      simp [enforceLimit, h, h0]
    · have hk : (a :: t).length - limit = (t.length - limit) + 1 := by simp; omega
      simp only [enforceLimit, if_neg h, ih, hk, List.drop_succ_cons, List.take_succ_cons]
      cases htex : a.entry.texture <;>
        simp [List.filterMap_cons, htex, Option.toList]

theorem enforceLimit_length_le (limit : Nat) (l : List CacheSlot) :
    (enforceLimit limit l).1.length ≤ limit := by
  rw [enforceLimit_eq]
  simp only [List.length_drop]
  omega

def slotsOrdered (l : List CacheSlot) : Prop :=
  List.Pairwise (fun a b => a.lastTouch ≤ b.lastTouch) l

def CacheInv (s : CacheState) : Prop :=
  slotsOrdered s.slots ∧ ∀ x ∈ s.slots, x.lastTouch < s.clock

theorem inv_append_touch (s : CacheState) (l : List CacheSlot) (u : String)
    (e : ThumbEntry) (hord : slotsOrdered l) (hbound : ∀ x ∈ l, x.lastTouch < s.clock) :
    slotsOrdered (l ++ [⟨u, e, s.clock⟩]) ∧
      ∀ x ∈ l ++ [⟨u, e, s.clock⟩], x.lastTouch < s.clock + 1 := by
  constructor
  · rw [slotsOrdered, List.pairwise_append]
    refine ⟨hord, List.pairwise_singleton _ _, ?_⟩
    intro a ha b hb
    simp only [List.mem_singleton] at hb
    subst hb
    exact le_of_lt (hbound a ha)
  · intro x hx
    rcases List.mem_append.mp hx with h1 | h1
    · exact lt_trans (hbound x h1) (Nat.lt_succ_self _)
    · simp only [List.mem_singleton] at h1
      subst h1
      exact Nat.lt_succ_self _

theorem inv_touch (s : CacheState) (u : String) (e : ThumbEntry)
    (h : CacheInv s) : CacheInv (touch s u e) := by
  obtain ⟨hord, hbound⟩ := h
  have hsub : (mapDelete s.slots u).Sublist s.slots := List.filter_sublist _
  have hord2 : slotsOrdered (mapDelete s.slots u) := List.Pairwise.sublist hsub hord
  have hbound2 : ∀ x ∈ mapDelete s.slots u, x.lastTouch < s.clock :=
    fun x hx => hbound x (hsub.mem hx)
  exact inv_append_touch s _ u e hord2 hbound2

theorem mapGet_none_not_any (c : List CacheSlot) (u : String)
    (h : mapGet c u = none) : c.any (fun s => s.url = u) = false := by
  rw [mapGet, Option.map_eq_none'] at h
  rw [List.find?_eq_none] at h
  rw [List.any_eq_false]
  intro x hx
  simpa using h x hx

theorem inv_imgGetStart (s : CacheState) (u : String) (load : Nat)
    (h : CacheInv s) : CacheInv (imgGetStart s u load).1 := by
  obtain ⟨hord, hbound⟩ := h
  unfold imgGetStart
  cases hg : mapGet s.slots u with
  | none =>
    simp only
    rw [mapSet, if_neg (by rw [mapGet_none_not_any _ _ hg]; simp)]
    exact inv_append_touch s s.slots u _ hord hbound
  | some e =>
    cases e with
    | resolved tex => exact inv_touch s u _ ⟨hord, hbound⟩
    | pending l2 => exact ⟨hord, hbound⟩

theorem inv_step (limit : Nat) (s : CacheState) (e : GetEvent)
    (h : CacheInv s) : CacheInv (step limit s e).1 := by
  cases e with
  | getStart u load => exact inv_imgGetStart s u load h
  | loadOk u tex =>
    have h1 : CacheInv (touch s u (.resolved tex)) := inv_touch s u _ h
    obtain ⟨hord, hbound⟩ := h1
    constructor
    · show slotsOrdered (enforceLimit limit (touch s u (.resolved tex)).slots).1
      rw [enforceLimit_eq]
      exact List.Pairwise.sublist (List.drop_sublist _ _) hord
    · intro x hx
      apply hbound
      revert hx
      show x ∈ (enforceLimit limit (touch s u (.resolved tex)).slots).1 → _
      rw [enforceLimit_eq]
      exact fun hx => (List.drop_sublist _ _).mem hx
  | loadFail u =>
    obtain ⟨hord, hbound⟩ := h
    have hsub : (mapDelete s.slots u).Sublist s.slots := List.filter_sublist _
    exact ⟨List.Pairwise.sublist hsub hord, fun x hx => hbound x (hsub.mem hx)⟩

theorem lruStepOk_of_inv (limit : Nat) (s : CacheState) (e : GetEvent)
    (h : CacheInv s) : lruStepOk limit s e = true := by
  rw [lruStepOk, decide_eq_true_eq]
  cases e with
  | getStart u load =>
    show List.Pairwise _ ([] ++ _)
    rw [List.nil_append]
    exact (inv_imgGetStart s u load h).1
  | loadOk u tex =>
    have h1 : CacheInv (touch s u (.resolved tex)) := inv_touch s u _ h
    have e1 : (step limit s (.loadOk u tex)).2.1 =
        (touch s u (.resolved tex)).slots.take
          ((touch s u (.resolved tex)).slots.length - limit) := by
      simp [step, enforceLimit_eq]
    have e2 : (step limit s (.loadOk u tex)).1.slots =
        (touch s u (.resolved tex)).slots.drop
          ((touch s u (.resolved tex)).slots.length - limit) := by
      simp [step, enforceLimit_eq]
    rw [e1, e2, List.take_append_drop]
    exact h1.1
  | loadFail u =>
    show List.Pairwise _ ([] ++ _)
    rw [List.nil_append]
    exact (inv_step limit s (.loadFail u) h).1

theorem initialCache_inv : CacheInv initialCache :=
  ⟨List.Pairwise.nil, by intro x hx; cases hx⟩

theorem lruRunOk_of_inv (limit : Nat) (evs : List GetEvent) :
    ∀ s : CacheState, CacheInv s → lruRunOk limit s evs = true := by
  induction evs with
  | nil => intro s _; rfl
  | cons e t ih =>
    intro s h
    rw [lruRunOk, Bool.and_eq_true]
    exact ⟨lruStepOk_of_inv limit s e h, ih _ (inv_step limit s e h)⟩

theorem step_loadOk_length (limit : Nat) (s : CacheState) (u : String) (tex : Nat) :
    ((step limit s (.loadOk u tex)).1).slots.length ≤ limit := by
  show (enforceLimit limit (touch s u (.resolved tex)).slots).1.length ≤ limit
  exact enforceLimit_length_le _ _

theorem runCache_append_loadOk (limit : Nat) (evs : List GetEvent) (u : String)
    (tex : Nat) :
    runCache limit (evs ++ [GetEvent.loadOk u tex]) =
      (step limit (runCache limit evs) (.loadOk u tex)).1 := by
  rw [runCache, List.foldl_append]
  rfl

/-- C1: along every event trace of `get` effects, each completed insertion
(`touch(entry); enforceLimit()`) leaves at most the configured limit of
resolved entries in the store — 24 for the image-gallery cache, 18 for the
video-gallery cache — and every eviction anywhere in the trace removes
least-recently-touched entries: the evicted slots, in eviction order,
followed by the survivors are ordered by last-touch time (a touch being a
hit on a resolved entry or a newly stored entry). -/
theorem thumbCache_bounded_and_lru :
    (∀ (evs : List GetEvent) (u : String) (tex : Nat),
        resolvedCount (runCache GALLERY_THUMB_CACHE_LIMIT
            (evs ++ [GetEvent.loadOk u tex])).slots ≤ GALLERY_THUMB_CACHE_LIMIT)
    ∧ (∀ (evs : List GetEvent) (u : String) (tex : Nat),
        resolvedCount (runCache VIDEO_THUMB_CACHE_LIMIT
            (evs ++ [GetEvent.loadOk u tex])).slots ≤ VIDEO_THUMB_CACHE_LIMIT)
    ∧ (∀ (limit : Nat) (evs : List GetEvent),
        lruRunOk limit initialCache evs = true) := by
  refine ⟨?_, ?_, fun limit evs => lruRunOk_of_inv limit evs _ initialCache_inv⟩
  · intro evs u tex
    rw [runCache_append_loadOk]
    exact le_trans (List.countP_le_length _) (step_loadOk_length _ _ _ _)
  · intro evs u tex
    rw [runCache_append_loadOk]
    exact le_trans (List.countP_le_length _) (step_loadOk_length _ _ _ _)

theorem length_filterMap_eq_countP (l : List CacheSlot) :
    (l.filterMap (fun s => s.entry.texture)).length =
      l.countP (fun s => (s.entry.texture).isSome) := by
  induction l with
  | nil => rfl
  | cons a t ih =>
    cases h : a.entry.texture <;>
      simp [List.filterMap_cons, List.countP_cons, h, ih]

/-- C3 (amended): an eviction pass removes the oldest slots and calls
`disposeThumbnailTexture` exactly on the textures of the evicted slots that
were resolved, in eviction order; hence a resolved evictee's texture is
released exactly once per pass (textures being distinct), and a pending
evictee — which holds no texture — triggers no release at eviction time. -/
theorem eviction_disposes_resolved_once :
    (∀ (limit : Nat) (l : List CacheSlot),
        enforceLimit limit l =
          (l.drop (l.length - limit), l.take (l.length - limit),
            (l.take (l.length - limit)).filterMap (fun s => s.entry.texture)))
    ∧ (∀ (limit : Nat) (l : List CacheSlot),
        (enforceLimit limit l).2.2.length =
          (enforceLimit limit l).2.1.countP (fun s => (s.entry.texture).isSome))
    ∧ (∀ (limit : Nat) (l : List CacheSlot),
        (l.filterMap (fun s => s.entry.texture)).Nodup →
        ∀ x ∈ (enforceLimit limit l).2.1, ∀ t, x.entry.texture = some t →
          (enforceLimit limit l).2.2.count t = 1) := by
  refine ⟨enforceLimit_eq, ?_, ?_⟩
  · intro limit l
    rw [enforceLimit_eq]
    exact length_filterMap_eq_countP _
  · intro limit l hnodup x hx t ht
    rw [enforceLimit_eq] at hx ⊢
    simp only at hx ⊢
    have hsub : ((l.take (l.length - limit)).filterMap
        (fun s => s.entry.texture)).Sublist (l.filterMap (fun s => s.entry.texture)) :=
      (List.take_sublist _ _).filterMap _
    have hnd : ((l.take (l.length - limit)).filterMap
        (fun s => s.entry.texture)).Nodup := hnodup.sublist hsub
    have hmem : t ∈ (l.take (l.length - limit)).filterMap
        (fun s => s.entry.texture) :=
      List.mem_filterMap.mpr ⟨x, hx, ht⟩
    exact List.count_eq_one_of_mem hnd hmem

/-- A realistic trace: 25 distinct URLs begin loading (25 pending entries —
`enforceLimit` only runs on insertion), then the 25th load completes. -/
def overfillTrace : List GetEvent :=
  ((List.range 25).map (fun i => GetEvent.getStart (toString i) i)) ++
    [GetEvent.loadOk (toString 24) 100]

theorem pending_eviction_no_disposal :
    ((runAcc GALLERY_THUMB_CACHE_LIMIT overfillTrace).2.1.map
        (fun s => (s.url, s.entry))) = [("0", .pending 0)]
    ∧ (runAcc GALLERY_THUMB_CACHE_LIMIT overfillTrace).2.2 = [] := by decide

theorem mapGet_append_absent (c : List CacheSlot) (u : String) (x : CacheSlot)
    (h : mapGet c u = none) (hx : x.url = u) : mapGet (c ++ [x]) u = some x.entry := by
  induction c with
  | nil => simp [mapGet, List.find?, hx]
  | cons a t ih =>
    rw [mapGet, Option.map_eq_none'] at h
    rw [List.find?_eq_none] at h
    have ha : ¬ (a.url = u) := by simpa using h a (by simp)
    have ht : mapGet t u = none := by
      rw [mapGet, Option.map_eq_none', List.find?_eq_none]
      intro y hy
      exact h y (by simp [hy])
    have := ih ht
    rw [mapGet, List.cons_append, List.find?_cons_of_neg _ (by simpa using ha)]
    rw [mapGet] at this
    exact this

/-- C2 (amended): the image variant deduplicates: a get that finds no entry
starts exactly one underlying load and stores the pending entry before any
suspension, and any get that finds a pending entry attaches to it, starting
no load and leaving the cache untouched.  The video variant deduplicates the
same way once its video-extraction phase has stored the pending entry; a
get that begins while the entry is pending attaches.  (During the video
variant's poster-probe phase no entry is stored — see the counterexample.) -/
theorem thumb_load_dedup :
    (∀ (s : CacheState) (u : String) (load : Nat), mapGet s.slots u = none →
        (imgGetStart s u load).2.1 = 1
        ∧ (imgGetStart s u load).2.2 = .startedLoad
        ∧ (imgGetStart s u load).1.slots = s.slots ++ [⟨u, .pending load, s.clock⟩]
        ∧ mapGet (imgGetStart s u load).1.slots u = some (.pending load))
    ∧ (∀ (s : CacheState) (u : String) (load load2 : Nat),
        mapGet s.slots u = some (.pending load2) →
        imgGetStart s u load = (s, 0, .attached))
    ∧ (∀ (limit : Nat) (c : CacheState) (u : String) (load load2 : Nat),
        mapGet c.slots u = some (.pending load2) →
        vidStep limit c u .start load .begin = (c, .done, 0)) := by
  refine ⟨?_, ?_, ?_⟩
  · intro s u load h
    have hslots : (imgGetStart s u load).1.slots =
        s.slots ++ [⟨u, .pending load, s.clock⟩] := by
      rw [imgGetStart, h]
      simp only
      rw [mapSet, if_neg (by rw [mapGet_none_not_any _ _ h]; simp)]
    refine ⟨?_, ?_, hslots, ?_⟩
    · rw [imgGetStart, h]
    · rw [imgGetStart, h]
    · rw [hslots]
      exact mapGet_append_absent _ _ _ h rfl
  · intro s u load load2 h
    rw [imgGetStart, h]
  · intro limit c u load load2 h
    unfold vidStep
    rw [h]

/-- C2 counterexample to the claim as stated: two concurrent video-variant
gets for the same URL, the second starting while the first awaits its poster
`HEAD` probe.  Neither finds a cache entry (the probe phase stores none), so
both probe, both load the poster — two underlying loads, not one — and both
run to completion. -/
theorem videoPosterProbe_double_load :
    (vid2Run VIDEO_THUMB_CACHE_LIMIT "clip.mp4" posterOverlapSched).2.2.2 = 2
    ∧ (vid2Run VIDEO_THUMB_CACHE_LIMIT "clip.mp4" posterOverlapSched).2.1 = .done
    ∧ (vid2Run VIDEO_THUMB_CACHE_LIMIT "clip.mp4" posterOverlapSched).2.2.1 = .done := by
  decide
